import Mathlib

/-!
Verification development for the Memory Retrieval Engine of the
claude-memory-mcp repository: a shallow embedding of the event store,
keyword index with decay metadata, budgeted context loader, importance
scorer and session compactor, together with theorems settling the
claims of the specification against the code.

Modelling conventions:
* JavaScript objects used as string-keyed maps are modelled by insertion
  ordered association lists (`List (String × α)`); `alistSet` updates an
  existing key in place and appends a fresh key, exactly as property
  assignment does.
* JavaScript exceptions are modelled by `Except`; a `try`/`catch` block
  becomes a `match` on the `Except` value.
* Floating point scores are modelled by `ℚ` where the code only compares
  and accumulates, and by `ℝ` where `Math.exp`/`Math.sqrt` appear
  (decay scoring, cosine similarity).
* `JSON.parse` and the embedding provider are external to the repository
  and are passed in as function parameters (`parseLine`, `embed`, …).
-/

/-- ASCII lowercasing of a string, modelling `String.prototype.toLowerCase`
on the ASCII fragment that the pattern tables and identifiers use. -/
def jsToLower (s : String) : String :=
  String.mk (s.toList.map Char.toLower)

/-- Lookup in an insertion-ordered association list (JS object property read). -/
def alistLookup {α : Type} (k : String) : List (String × α) → Option α
  | [] => none
  | (k', v) :: t => if k' == k then some v else alistLookup k t

/-- Write to an insertion-ordered association list (JS object property
assignment): an existing key is overwritten in place, a fresh key is
appended at the end. -/
def alistSet {α : Type} (k : String) (v : α) : List (String × α) → List (String × α)
  | [] => [(k, v)]
  | (k', v') :: t => if k' == k then (k, v) :: t else (k', v') :: alistSet k v t

/-- Whether the first list starts with the second (character level). -/
def listStartsWith : List Char → List Char → Bool
  | _, [] => true
  | [], _ :: _ => false
  | a :: as, b :: bs => a == b && listStartsWith as bs

/-- Whether the needle occurs as a contiguous sublist of the haystack. -/
def listContainsSeq (needle : List Char) : List Char → Bool
  | [] => listStartsWith [] needle
  | c :: t => listStartsWith (c :: t) needle || listContainsSeq needle t

/-- Whether the first list ends with the second (character level). -/
def listEndsWith (hay needle : List Char) : Bool :=
  listStartsWith hay.reverse needle.reverse

/-- Event types of the memory event log (`MemoryEvent.type` in `store.ts`). -/
inductive EventType where
  | user
  | assistant
  | insight
  | anchor
deriving DecidableEq

/-- `MemoryEvent` from `src/memory/store.ts`: one immutable record of the
append-only event log. `emotionalWeight` is an integer in 0–10. -/
structure MemoryEvent where
  id : String
  timestamp : String
  sessionId : String
  type : EventType
  content : String
  keywords : List String
  emotionalWeight : Nat
deriving DecidableEq

/-- Clock reading visible to `generateSessionId` in `src/memory/compactor.ts`:
`isoDate` is `new Date().toISOString().split('T')[0]` (the calendar date),
`localTime` is `toTimeString().split(' ')[0]` (the local `HH:MM:SS` string),
and `ms` carries the sub-second part of the instant, which the code never
reads. -/
structure ClockReading where
  isoDate : String
  localTime : String
  ms : Nat
deriving DecidableEq

/-- `generateSessionId` from `src/memory/compactor.ts` (lines 302–307):
`'session_' + dateStr + '_' + timeStr` where `timeStr` is the local
`HH:MM:SS` string with the colons removed. No random component enters. -/
def generateSessionId (c : ClockReading) : String :=
  "session_" ++ c.isoDate ++ "_" ++ String.mk (c.localTime.toList.filter (fun ch => !(ch == ':')))

/-- C9 counterexample: two distinct call instants inside the same clock
second (they differ in the millisecond part) receive the same session id,
refuting the claim that any two `startSession` calls return distinct ids. -/
theorem generateSessionId_same_second_collision :
    (ClockReading.mk "2025-10-11" "03:00:00" 100) ≠ (ClockReading.mk "2025-10-11" "03:00:00" 900) ∧
    generateSessionId (ClockReading.mk "2025-10-11" "03:00:00" 100) =
      generateSessionId (ClockReading.mk "2025-10-11" "03:00:00" 900) := by
  exact ⟨by decide, rfl⟩

/-- C9 (amended): the session id generated by `startSession` is
`session_<date>_<HHMMSS>`, a pure function of the second-resolution clock
reading with no entropy; hence two calls whose clock readings agree on the
date and on the `HH:MM:SS` time — in particular two calls within the same
clock second — receive the same id. -/
theorem generateSessionId_second_resolution (c₁ c₂ : ClockReading)
    (hd : c₁.isoDate = c₂.isoDate) (ht : c₁.localTime = c₂.localTime) :
    generateSessionId c₁ = generateSessionId c₂ := by
  simp [generateSessionId, hd, ht]

/-- C9 witness: the amended theorem applied to two concrete readings in the
same clock second. -/
theorem generateSessionId_second_resolution_witness :
    generateSessionId (ClockReading.mk "2025-10-11" "03:00:00" 100) =
      generateSessionId (ClockReading.mk "2025-10-11" "03:00:00" 900) :=
  generateSessionId_second_resolution
    (ClockReading.mk "2025-10-11" "03:00:00" 100)
    (ClockReading.mk "2025-10-11" "03:00:00" 900) rfl rfl


/-- Fail-fast effectful map, modelling `Array.prototype.map` with a callback
that can throw: the first exception aborts the whole map. -/
def mapExcept {ε α β : Type} (f : α → Except ε β) : List α → Except ε (List β)
  | [] => .ok []
  | a :: t =>
    match f a with
    | .error e => .error e
    | .ok b =>
      match mapExcept f t with
      | .error e => .error e
      | .ok bs => .ok (b :: bs)

/-- Split a character list at newline characters, modelling
`String.prototype.split('\n')` (empty segments are kept). -/
def splitNewlines : List Char → List (List Char)
  | [] => [[]]
  | c :: t =>
    let r := splitNewlines t
    if c == '\n' then [] :: r
    else
      match r with
      | [] => [[c]]
      | h :: rs => (c :: h) :: rs

/-- Whether a line is non-empty after trimming, modelling the truthiness
test `l.trim()` used to filter lines. -/
def trimmedNonempty (l : List Char) : Bool :=
  !(l.dropWhile Char.isWhitespace).isEmpty

/-- The kept lines of a partition file, as produced by
`content.split('\n').filter((l) => l.trim())` in `EventStore.readFile`
(the original, untrimmed lines are kept). -/
def recordLines (content : String) : List String :=
  ((splitNewlines content.toList).filter trimmedNonempty).map String.mk

/-- `EventStore.readFile` from `src/memory/store.ts` (lines 104–113): split
the file into lines, drop whitespace-only lines, and `JSON.parse` every
remaining line. `parseLine` stands for `JSON.parse` (external); a line on
which it fails throws, modelled by `Except.error`. -/
def readFileModel (parseLine : String → Option MemoryEvent) (content : String) :
    Except Unit (List MemoryEvent) :=
  mapExcept (fun l =>
    match parseLine l with
    | some e => .ok e
    | none => .error ()) (recordLines content)

/-- `EventStore.getEvents` from `src/memory/store.ts` (lines 57–71): read
every partition file in order, concatenate the events, optionally filter by
session id. `files` is the list of partition file contents in sorted
(chronological) order. -/
def getEventsModel (parseLine : String → Option MemoryEvent) (files : List String)
    (sessionId : Option String) : Except Unit (List MemoryEvent) :=
  match mapExcept (readFileModel parseLine) files with
  | .error e => .error e
  | .ok eventLists =>
    let events := eventLists.flatten
    match sessionId with
    | some sid => .ok (events.filter (fun e => e.sessionId == sid))
    | none => .ok events

/-- All records of a partition that parse, in file order (what the claim
says `getEvents` should return for a partition with a malformed tail). -/
def wellFormedRecords (parseLine : String → Option MemoryEvent) (content : String) :
    List MemoryEvent :=
  (recordLines content).filterMap parseLine

theorem mapExcept_parse_ok (parseLine : String → Option MemoryEvent) :
    ∀ ls : List String, (∀ l ∈ ls, (parseLine l).isSome) →
      mapExcept (fun l =>
        match parseLine l with
        | some e => .ok e
        | none => .error ()) ls = .ok (ls.filterMap parseLine)
  | [], _ => by simp [mapExcept]
  | l :: t, h => by
    obtain ⟨e, he⟩ := Option.isSome_iff_exists.mp (h l (List.mem_cons_self l t))
    have ih := mapExcept_parse_ok parseLine t (fun l' hl' => h l' (List.mem_cons_of_mem _ hl'))
    simp [mapExcept, he, ih]

theorem mapExcept_unit_error {α β : Type} (f : α → Except Unit β) :
    ∀ l : List α, (∃ a ∈ l, f a = .error ()) → mapExcept f l = .error ()
  | [], h => by simp at h
  | a :: t, h => by
    obtain ⟨a', ha', hfa⟩ := h
    rcases List.mem_cons.mp ha' with hh | hh
    · subst hh
      simp [mapExcept, hfa]
    · simp only [mapExcept]
      match hfa' : f a with
      | .error () => rfl
      | .ok b => rw [mapExcept_unit_error f t ⟨a', hh, hfa⟩]

theorem readFileModel_ok (parseLine : String → Option MemoryEvent) (content : String)
    (h : ∀ l ∈ recordLines content, (parseLine l).isSome) :
    readFileModel parseLine content = .ok (wellFormedRecords parseLine content) :=
  mapExcept_parse_ok parseLine (recordLines content) h

theorem mapExcept_readFile_ok (parseLine : String → Option MemoryEvent) :
    ∀ files : List String, (∀ f ∈ files, ∀ l ∈ recordLines f, (parseLine l).isSome) →
      mapExcept (readFileModel parseLine) files =
        .ok (files.map (wellFormedRecords parseLine))
  | [], _ => by simp [mapExcept]
  | f :: t, h => by
    have hf := readFileModel_ok parseLine f (h f (List.mem_cons_self f t))
    have ih := mapExcept_readFile_ok parseLine t (fun f' hf' => h f' (List.mem_cons_of_mem _ hf'))
    simp [mapExcept, hf, ih]

/-- Sample event used in concrete evaluations of the store model. -/
def sampleEventA : MemoryEvent :=
  { id := "evt_1", timestamp := "2025-10-01T10:00:00.000Z", sessionId := "s1",
    type := .user, content := "hallo", keywords := ["hallo"], emotionalWeight := 5 }

/-- Second sample event used in concrete evaluations of the store model. -/
def sampleEventB : MemoryEvent :=
  { id := "evt_2", timestamp := "2025-10-01T10:01:00.000Z", sessionId := "s1",
    type := .assistant, content := "welt", keywords := ["welt"], emotionalWeight := 6 }

/-- Concrete stand-in for `JSON.parse` on event lines: parses the two
sample lines and fails on everything else (as `JSON.parse` fails on a
truncated fragment). -/
def sampleParseLine (l : String) : Option MemoryEvent :=
  if l == "A" then some sampleEventA
  else if l == "B" then some sampleEventB
  else none

/-- C5 counterexample: a partition whose first line parses and whose final
line is a truncated fragment makes `getEvents` abort with an error instead
of returning the prior well-formed record, refuting the claim that the
unparseable fragment is skipped. -/
theorem getEvents_aborts_on_malformed_tail :
    getEventsModel sampleParseLine ["A\ngarbage"] none = .error () ∧
    Except.error () ≠ Except.ok (wellFormedRecords sampleParseLine "A\ngarbage") := by
  refine ⟨rfl, by simp⟩

/-- C5 (amended): `getEvents` is all-or-nothing. When every kept line of
every partition parses, it returns exactly the concatenation of the parsed
records of each partition in order; but as soon as any kept line of any
partition is unparseable, the whole read aborts with an error — the prior
well-formed records are not returned and nothing is skipped. -/
theorem getEvents_all_or_nothing (parseLine : String → Option MemoryEvent)
    (files : List String) :
    ((∀ f ∈ files, ∀ l ∈ recordLines f, (parseLine l).isSome) →
      getEventsModel parseLine files none =
        .ok (files.map (wellFormedRecords parseLine)).flatten) ∧
    ((∃ f ∈ files, ∃ l ∈ recordLines f, parseLine l = none) →
      getEventsModel parseLine files none = .error ()) := by
  constructor
  · intro hall
    rw [getEventsModel, mapExcept_readFile_ok parseLine files hall]
  · rintro ⟨f, hf, l, hl, hbad⟩
    have hfile : readFileModel parseLine f = .error () := by
      apply mapExcept_unit_error
      exact ⟨l, hl, by simp [hbad]⟩
    have hmap : mapExcept (readFileModel parseLine) files = .error () :=
      mapExcept_unit_error _ files ⟨f, hf, hfile⟩
    rw [getEventsModel, hmap]

/-- C5 witness: the amended theorem applied concretely — a fully
well-formed pair of partitions is read whole, and a partition with a
garbage tail aborts the read. -/
theorem getEvents_all_or_nothing_witness :
    getEventsModel sampleParseLine ["A\nB", "  \n"] none =
      .ok ((["A\nB", "  \n"].map (wellFormedRecords sampleParseLine)).flatten) ∧
    getEventsModel sampleParseLine ["A\ngarbage\nB"] none = .error () :=
  ⟨(getEvents_all_or_nothing sampleParseLine ["A\nB", "  \n"]).1 (by decide),
   (getEvents_all_or_nothing sampleParseLine ["A\ngarbage\nB"]).2
     ⟨"A\ngarbage\nB", by decide, "garbage", by decide, by decide⟩⟩

/-- `EventMeta` from `src/memory/index.ts`: per-event decay metadata. -/
structure EventMeta where
  id : String
  baseScore : Nat
  createdAt : String
  accessCount : Nat
  lastAccessed : Option String
deriving DecidableEq

/-- `SessionMeta` from `src/memory/index.ts`. -/
structure SessionMeta where
  id : String
  startTime : String
  endTime : Option String
  summary : Option String
  emotionalTone : Option String
  eventCount : Nat
deriving DecidableEq

/-- `MemoryIndex` from `src/memory/index.ts`: the persisted index document
(keyword map, sessions map, anchors list, per-event decay metadata). -/
structure MemoryIndex where
  keywords : List (String × List String)
  sessions : List (String × SessionMeta)
  anchors : List String
  eventMeta : List (String × EventMeta)
  lastUpdate : String
deriving DecidableEq

/-- The freshly initialized index used when no `index.json` exists. -/
def emptyIndex (now : String) : MemoryIndex :=
  { keywords := [], sessions := [], anchors := [], eventMeta := [], lastUpdate := now }

/-- `IndexService.addToIndex` from `src/memory/index.ts` (lines 72–109):
index the event's keywords, track the session, track anchors for
`emotionalWeight ≥ 7`, and write the event's decay metadata. Note that the
`eventMeta` entry is assigned unconditionally, with `accessCount: 0`.
`now` is the timestamp `saveIndex` writes into `lastUpdate`. -/
def addToIndex (st : MemoryIndex) (e : MemoryEvent) (now : String) : MemoryIndex :=
  let kws := e.keywords.foldl (fun m kw =>
    let lower := jsToLower kw
    let ids := (alistLookup lower m).getD []
    if ids.contains e.id then alistSet lower ids m
    else alistSet lower (ids ++ [e.id]) m) st.keywords
  let sessions0 :=
    match alistLookup e.sessionId st.sessions with
    | some _ => st.sessions
    | none =>
      alistSet e.sessionId
        { id := e.sessionId, startTime := e.timestamp, endTime := none,
          summary := none, emotionalTone := none, eventCount := 0 } st.sessions
  let sessions :=
    match alistLookup e.sessionId sessions0 with
    | some s =>
      alistSet e.sessionId
        { s with eventCount := s.eventCount + 1, endTime := some e.timestamp } sessions0
    | none => sessions0
  let anchors :=
    if 7 ≤ e.emotionalWeight ∧ ¬ st.anchors.contains e.id then st.anchors ++ [e.id]
    else st.anchors
  let meta := alistSet e.id
    { id := e.id, baseScore := e.emotionalWeight, createdAt := e.timestamp,
      accessCount := 0, lastAccessed := none } st.eventMeta
  { keywords := kws, sessions := sessions, anchors := anchors,
    eventMeta := meta, lastUpdate := now }

/-- `IndexService.recordAccess` from `src/memory/index.ts` (lines 169–175):
increment the event's `accessCount` and stamp `lastAccessed`, if the event
has metadata; otherwise do nothing. -/
def recordAccess (st : MemoryIndex) (eventId : String) (now : String) : MemoryIndex :=
  match alistLookup eventId st.eventMeta with
  | none => st
  | some m =>
    { st with
      eventMeta := alistSet eventId
        { m with accessCount := m.accessCount + 1, lastAccessed := some now } st.eventMeta,
      lastUpdate := now }

/-- `IndexService.lookup` from `src/memory/index.ts` (lines 111–121): the
union of the id lists indexed under each keyword (lowercased), deduplicated
in first-seen order as a JS `Set` does. -/
def lookupKeywords (st : MemoryIndex) (keywords : List String) : List String :=
  keywords.foldl (fun acc kw =>
    let ids := (alistLookup (jsToLower kw) st.keywords).getD []
    ids.foldl (fun acc id => if acc.contains id then acc else acc ++ [id]) acc) []

/-- The operations of the index service that touch `eventMeta`: indexing an
event (`addToIndex`) and recording an access (`recordAccess`, also invoked
by `loadTriggeredMemories` for every memory surfaced to the caller). -/
inductive IndexOp where
  | add (e : MemoryEvent) (now : String)
  | access (eventId : String) (now : String)

/-- Apply one index operation to the index state. -/
def applyOp (st : MemoryIndex) : IndexOp → MemoryIndex
  | .add e now => addToIndex st e now
  | .access eventId now => recordAccess st eventId now

/-- Apply a sequence of index operations from left to right. -/
def applyOps (st : MemoryIndex) (ops : List IndexOp) : MemoryIndex :=
  ops.foldl applyOp st

/-- The stored `accessCount` of an event id, when the id is tracked. -/
def getAccessCount (st : MemoryIndex) (eventId : String) : Option Nat :=
  (alistLookup eventId st.eventMeta).map (fun m => m.accessCount)

/-- An operation is meta-fresh in a state when it is not an `addToIndex`
for an event id that is already tracked in `eventMeta` (re-adding a tracked
id overwrites its metadata with `accessCount: 0`). -/
def MetaFresh (st : MemoryIndex) : IndexOp → Prop
  | .add e _ => alistLookup e.id st.eventMeta = none
  | .access _ _ => True

/-- A trace of operations is meta-fresh when every operation is meta-fresh
in the state in which it executes. -/
def MetaFreshTrace : MemoryIndex → List IndexOp → Prop
  | _, [] => True
  | st, op :: ops => MetaFresh st op ∧ MetaFreshTrace (applyOp st op) ops

/-- Sample event of high emotional weight used in concrete index traces. -/
def anchorEvent : MemoryEvent :=
  { id := "evt_9", timestamp := "2025-10-02T09:00:00.000Z", sessionId := "s2",
    type := .user, content := "Ich bin Marcel und das Projekt ist fertig!",
    keywords := ["marcel", "projekt"], emotionalWeight := 8 }

/-- C3 counterexample: starting from the empty index, `addToIndex` on an
event, then `recordAccess` (as retrieval does), then `addToIndex` on the
same event again makes the stored `accessCount` drop from 1 back to 0 —
`addToIndex` overwrites the `eventMeta` entry with `accessCount: 0`, so
`accessCount` does not only increase across arbitrary operation sequences. -/
theorem accessCount_decreases_on_readd :
    getAccessCount
      (applyOps (emptyIndex "t0")
        [IndexOp.add anchorEvent "t1", IndexOp.access "evt_9" "t2"]) "evt_9" = some 1 ∧
    getAccessCount
      (applyOps (emptyIndex "t0")
        [IndexOp.add anchorEvent "t1", IndexOp.access "evt_9" "t2",
         IndexOp.add anchorEvent "t3"]) "evt_9" = some 0 := by
  exact ⟨rfl, rfl⟩

theorem alistLookup_set_eq {α : Type} (k : String) (v : α) :
    ∀ m : List (String × α), alistLookup k (alistSet k v m) = some v
  | [] => by simp [alistSet, alistLookup]
  | (k', v') :: t => by
    by_cases h : k' = k
    · subst h
      simp [alistSet, alistLookup]
    · simp [alistSet, alistLookup, h, alistLookup_set_eq k v t]

theorem alistLookup_set_ne {α : Type} (k k' : String) (v : α) (hne : k ≠ k') :
    ∀ m : List (String × α), alistLookup k' (alistSet k v m) = alistLookup k' m
  | [] => by simp [alistSet, alistLookup, hne]
  | (k0, v0) :: t => by
    by_cases h : k0 = k
    · subst h
      simp [alistSet, alistLookup, hne]
    · by_cases h' : k0 = k'
      · subst h'
        simp [alistSet, alistLookup, h]
      · simp [alistSet, alistLookup, h, h', alistLookup_set_ne k k' v hne t]

/-- One meta-fresh operation never decreases a tracked `accessCount`. -/
theorem accessCount_step_mono (st : MemoryIndex) (op : IndexOp)
    (hfresh : MetaFresh st op) (id : String) (n : Nat)
    (h : getAccessCount st id = some n) :
    ∃ m, getAccessCount (applyOp st op) id = some m ∧ n ≤ m := by
  match op with
  | .add e now =>
    have hnone : alistLookup e.id st.eventMeta = none := hfresh
    by_cases hid : e.id = id
    · subst hid
      simp [getAccessCount, hnone] at h
    · refine ⟨n, ?_, le_refl n⟩
      simp only [applyOp, addToIndex, getAccessCount]
      rw [alistLookup_set_ne e.id id _ hid]
      exact h
  | .access eventId now =>
    obtain ⟨meta, hmeta⟩ := Option.map_eq_some'.mp h
    by_cases hid : eventId = id
    · subst hid
      refine ⟨n + 1, ?_, Nat.le_succ n⟩
      simp only [applyOp, recordAccess, hmeta.1, getAccessCount]
      rw [alistLookup_set_eq]
      simp [hmeta.2]
    · refine ⟨n, ?_, le_refl n⟩
      simp only [applyOp, recordAccess, getAccessCount]
      match hm : alistLookup eventId st.eventMeta with
      | none => exact h
      | some m' =>
        simp only [getAccessCount]
        rw [alistLookup_set_ne eventId id _ hid]
        exact h

/-- C3 (amended): along any meta-fresh trace of index operations — that is,
`recordAccess` (including the accesses recorded by retrieval through
`loadTriggeredMemories`) arbitrarily often, and `addToIndex` only for event
ids not already tracked in `eventMeta`, which is how the system uses it
since event ids are unique — the stored `accessCount` of every tracked
event id never decreases. Re-invoking `addToIndex` on an already tracked id
instead resets its `accessCount` to 0. -/
theorem accessCount_monotone_of_fresh :
    ∀ (ops : List IndexOp) (st : MemoryIndex) (id : String) (n : Nat),
      MetaFreshTrace st ops → getAccessCount st id = some n →
      ∃ m, getAccessCount (applyOps st ops) id = some m ∧ n ≤ m
  | [], st, id, n, _, h => ⟨n, h, le_refl n⟩
  | op :: ops, st, id, n, htrace, h => by
    obtain ⟨hfresh, htail⟩ := htrace
    obtain ⟨m, hm, hnm⟩ := accessCount_step_mono st op hfresh id n h
    obtain ⟨m', hm', hmm'⟩ := accessCount_monotone_of_fresh ops (applyOp st op) id m htail hm
    exact ⟨m', hm', le_trans hnm hmm'⟩

/-- C3 witness: the amended theorem applied to a concrete fresh trace —
add a new event, record two accesses; the count never drops below its
starting value. -/
theorem accessCount_monotone_of_fresh_witness :
    ∃ m, getAccessCount
        (applyOps (applyOp (emptyIndex "t0") (IndexOp.add anchorEvent "t1"))
          [IndexOp.access "evt_9" "t2", IndexOp.access "evt_9" "t3"]) "evt_9" = some m ∧
      0 ≤ m :=
  accessCount_monotone_of_fresh
    [IndexOp.access "evt_9" "t2", IndexOp.access "evt_9" "t3"]
    (applyOp (emptyIndex "t0") (IndexOp.add anchorEvent "t1"))
    "evt_9" 0 ⟨trivial, trivial, trivial⟩ rfl

/-- `IndexService.loadIndex` from `src/memory/index.ts` (lines 49–61): if
`index.json` exists its content is fed to `JSON.parse` with no `try`/`catch`
— an unparseable document throws out of the `IndexService` constructor,
modelled by `Except.error`. Only when the file does not exist is a fresh
empty index returned. `parse` stands for `JSON.parse`; `file` is the file
content when `index.json` exists. -/
def loadIndexModel (parse : String → Option MemoryIndex) (file : Option String)
    (now : String) : Except Unit MemoryIndex :=
  match file with
  | some content =>
    match parse content with
    | some idx => .ok idx
    | none => .error ()
  | none => .ok (emptyIndex now)

/-- `VectorStore.loadVectors` from `src/memory/embeddings.ts` (lines
168–181): read `vectors.json` if it exists and load the stored vectors into
the map; a parse failure is caught and the store starts fresh (empty).
Vector components are modelled by `ℚ`. -/
def loadVectorsModel (parse : String → Option (List (String × List ℚ)))
    (file : Option String) : List (String × List ℚ) :=
  match file with
  | none => []
  | some content =>
    match parse content with
    | some data => data.foldl (fun m p => alistSet p.1 p.2 m) []
    | none => []

/-- Concrete stand-in for `JSON.parse` on a corrupt document: fails on
every input, as `JSON.parse` does on unparseable text. -/
def failingParseIndex : String → Option MemoryIndex := fun _ => none

/-- Concrete stand-in for `JSON.parse` on a corrupt vector document. -/
def failingParseVectors : String → Option (List (String × List ℚ)) := fun _ => none

/-- C6 counterexample: with an existing but unparseable `index.json`,
`loadIndex` propagates the `JSON.parse` error out of the `IndexService`
constructor instead of reinitializing the index empty, refuting the half of
the claim that concerns the keyword index. -/
theorem loadIndex_throws_on_corrupt_json :
    loadIndexModel failingParseIndex (some "garbage") "t0" = .error () ∧
    Except.error () ≠ Except.ok (emptyIndex "t0") := by
  exact ⟨rfl, by simp⟩

/-- C6 (amended): of the two persisted derived structures, only the vector
store recovers from corruption — an existing but unparseable `vectors.json`
reinitializes the vector map empty, while an existing but unparseable
`index.json` makes `loadIndex` (and with it the `IndexService` constructor)
fail with the parse error rather than reinitializing the index. -/
theorem corrupt_state_recovery (parseI : String → Option MemoryIndex)
    (parseV : String → Option (List (String × List ℚ)))
    (ci cv : String) (now : String)
    (hI : parseI ci = none) (hV : parseV cv = none) :
    loadIndexModel parseI (some ci) now = .error () ∧
    loadVectorsModel parseV (some cv) = [] := by
  constructor
  · simp [loadIndexModel, hI]
  · simp [loadVectorsModel, hV]

/-- C6 witness: the amended theorem applied to concrete corrupt documents. -/
theorem corrupt_state_recovery_witness :
    loadIndexModel failingParseIndex (some "corrupt-index") "t0" = .error () ∧
    loadVectorsModel failingParseVectors (some "corrupt-vectors") = [] :=
  corrupt_state_recovery failingParseIndex failingParseVectors
    "corrupt-index" "corrupt-vectors" "t0" rfl rfl

/-- Decay metadata as `calculateEffectiveScore` reads it: the stored base
score (the event's `emotionalWeight`) and access count, with the base score
taken in `ℝ` because the formula multiplies it with `Math.exp`. -/
structure DecayMeta where
  baseScore : ℝ
  accessCount : ℕ

/-- `IndexService.calculateEffectiveScore` from `src/memory/index.ts`
(lines 146–164): `baseScore * decayFactor * accessBoost` with
`decayFactor = e^(-ageDays / halfLifeDays)` and
`accessBoost = 1 + 0.2 * accessCount`; a neutral 5 is returned when the id
has no metadata. `ageDays` is `(Date.now() - createdAt) / 86400000`. -/
noncomputable def calculateEffectiveScore (meta : Option DecayMeta)
    (ageDays halfLifeDays : ℝ) : ℝ :=
  match meta with
  | none => 5
  | some m => m.baseScore * Real.exp (-ageDays / halfLifeDays) * (1 + 0.2 * m.accessCount)

/-- C2 counterexample: an event whose `emotionalWeight` (base score) is 0 —
allowed, the weight ranges over 0–10 — has effective score 0 at every age,
so the score is not strictly decreasing in age: ages 0 and 1 give the same
value. -/
theorem effectiveScore_not_strict_at_zero_base :
    calculateEffectiveScore (some ⟨0, 0⟩) 0 30 =
      calculateEffectiveScore (some ⟨0, 0⟩) 1 30 ∧ (0 : ℝ) < 1 := by
  constructor
  · simp [calculateEffectiveScore]
  · norm_num

/-- C2 (amended): for every event with metadata whose base score is
positive (emotionalWeight ≥ 1), the effective score
`baseScore * e^(-ageDays/halfLifeDays) * (1 + 0.2 * accessCount)` is
strictly decreasing in age at fixed access count and strictly increasing in
access count at fixed age; for base score 0 it is constantly 0. -/
theorem effectiveScore_monotone (b : ℝ) (c c₁ c₂ : ℕ) (a a₁ a₂ h : ℝ)
    (hb : 0 < b) (hh : 0 < h) :
    (a₁ < a₂ →
      calculateEffectiveScore (some ⟨b, c⟩) a₂ h <
        calculateEffectiveScore (some ⟨b, c⟩) a₁ h) ∧
    (c₁ < c₂ →
      calculateEffectiveScore (some ⟨b, c₁⟩) a h <
        calculateEffectiveScore (some ⟨b, c₂⟩) a h) := by
  have hboost : ∀ n : ℕ, (0 : ℝ) < 1 + 0.2 * n := by
    intro n
    positivity
  constructor
  · intro ha
    have hexp : Real.exp (-a₂ / h) < Real.exp (-a₁ / h) := by
      apply Real.exp_lt_exp.mpr
      apply div_lt_div_of_pos_right (by linarith) hh
    simp only [calculateEffectiveScore]
    apply mul_lt_mul_of_pos_right _ (hboost c)
    exact mul_lt_mul_of_pos_left hexp hb
  · intro hc
    have hbe : 0 < b * Real.exp (-a / h) := by
      apply mul_pos hb (Real.exp_pos _)
    simp only [calculateEffectiveScore]
    apply mul_lt_mul_of_pos_left _ hbe
    have : (c₁ : ℝ) < (c₂ : ℝ) := by exact_mod_cast hc
    nlinarith

/-- C2 witness: the amended theorem at base score 5, half-life 30 — age 1
scores below age 0, and one recorded access scores above none. -/
theorem effectiveScore_monotone_witness :
    calculateEffectiveScore (some ⟨5, 0⟩) 1 30 <
      calculateEffectiveScore (some ⟨5, 0⟩) 0 30 ∧
    calculateEffectiveScore (some ⟨5, 0⟩) 0 30 <
      calculateEffectiveScore (some ⟨5, 1⟩) 0 30 :=
  ⟨(effectiveScore_monotone 5 0 0 1 0 0 1 30 (by norm_num) (by norm_num)).1 (by norm_num),
   (effectiveScore_monotone 5 0 0 1 0 0 1 30 (by norm_num) (by norm_num)).2 (by norm_num)⟩

/-- `ContextLoader.estimateTokens` from `src/memory/loader.ts` (lines
163–166): `Math.ceil(text.length / 4)`. -/
def estimateTokens (text : String) : Nat := (text.length + 3) / 4

/-- `ContextLoader.formatEvent` from `src/memory/loader.ts` (lines
158–161): `'[' + date + '] ' + content`; `fmtDate` stands for the external,
locale-dependent `toLocaleDateString`. -/
def formatEvent (fmtDate : String → String) (e : MemoryEvent) : String :=
  "[" ++ fmtDate e.timestamp ++ "] " ++ e.content

/-- A candidate event paired with its combined score, as built by
`loadTriggeredMemories` before sorting. Scores are modelled by `ℚ`. -/
structure Scored where
  event : MemoryEvent
  score : ℚ
deriving DecidableEq

/-- The sort `scored.sort((a, b) => b.score - a.score)` of
`loadTriggeredMemories`: stable, descending by score. -/
def sortByScoreDesc (l : List Scored) : List Scored :=
  l.insertionSort (fun a b => b.score ≤ a.score)

/-- The greedy budget loop of `loadTriggeredMemories` (lines 104–117 of
`src/memory/loader.ts`): walk the sorted candidates, accumulate estimated
token costs, and `break` at the first candidate whose inclusion would push
the accumulated cost over the budget. -/
def takeWithinBudget (fmtDate : String → String) (maxTokens : Nat) :
    Nat → List Scored → List String
  | _, [] => []
  | tokenCount, s :: rest =>
    let eventTokens := estimateTokens s.event.content
    if maxTokens < tokenCount + eventTokens then []
    else formatEvent fmtDate s.event ::
      takeWithinBudget fmtDate maxTokens (tokenCount + eventTokens) rest

/-- Number of candidates the greedy budget loop accepts. -/
def fitCount (maxTokens : Nat) : Nat → List Scored → Nat
  | _, [] => 0
  | tokenCount, s :: rest =>
    let eventTokens := estimateTokens s.event.content
    if maxTokens < tokenCount + eventTokens then 0
    else fitCount maxTokens (tokenCount + eventTokens) rest + 1

/-- Total estimated token cost of a candidate list. -/
def costOf (l : List Scored) : Nat :=
  (l.map (fun s => estimateTokens s.event.content)).sum

/-- The scored candidate list of `loadTriggeredMemories`: events whose id
the keyword lookup returned, each paired with its combined score.
`scoreOf` stands for `calculateScore` (which reads the wall clock and the
decay metadata; its decay core is `calculateEffectiveScore`). -/
def candidateScored (scoreOf : MemoryEvent → ℚ) (idx : MemoryIndex)
    (events : List MemoryEvent) (keywords : List String) : List Scored :=
  (events.filter (fun e => (lookupKeywords idx keywords).contains e.id)).map
    (fun e => Scored.mk e (scoreOf e))

/-- The score-ordered candidate list. -/
def rankedCandidates (scoreOf : MemoryEvent → ℚ) (idx : MemoryIndex)
    (events : List MemoryEvent) (keywords : List String) : List Scored :=
  sortByScoreDesc (candidateScored scoreOf idx events keywords)

/-- `ContextLoader.loadTriggeredMemories` from `src/memory/loader.ts`
(lines 86–120): look up candidate ids for the extracted keywords, score and
sort the matching events, then greedily fill the triggered-memory token
budget (default 1500) in descending score order. -/
def loadTriggeredMemories (fmtDate : String → String) (scoreOf : MemoryEvent → ℚ)
    (maxTokens : Nat) (idx : MemoryIndex) (events : List MemoryEvent)
    (keywords : List String) : List String :=
  if keywords.isEmpty then []
  else takeWithinBudget fmtDate maxTokens 0
    (rankedCandidates scoreOf idx events keywords)

theorem costOf_cons (s : Scored) (l : List Scored) :
    costOf (s :: l) = estimateTokens s.event.content + costOf l := by
  simp [costOf]

theorem takeWithinBudget_eq_take (fmtDate : String → String) (m : Nat) :
    ∀ (acc : Nat) (l : List Scored),
      takeWithinBudget fmtDate m acc l =
        (l.take (fitCount m acc l)).map (fun s => formatEvent fmtDate s.event)
  | _, [] => by simp [takeWithinBudget, fitCount]
  | acc, s :: rest => by
    by_cases hc : m < acc + estimateTokens s.event.content
    · simp [takeWithinBudget, fitCount, hc]
    · simp [takeWithinBudget, fitCount, hc,
        takeWithinBudget_eq_take fmtDate m (acc + estimateTokens s.event.content) rest]

theorem fitCount_budget (m : Nat) :
    ∀ (acc : Nat) (l : List Scored), acc ≤ m →
      acc + costOf (l.take (fitCount m acc l)) ≤ m
  | acc, [], h => by simpa [fitCount, costOf]
  | acc, s :: rest, h => by
    by_cases hc : m < acc + estimateTokens s.event.content
    · simpa [fitCount, costOf, hc]
    · push_neg at hc
      have ih := fitCount_budget m (acc + estimateTokens s.event.content) rest hc
      simp only [fitCount, if_neg (not_lt.mpr hc), List.take_succ_cons, costOf_cons]
      omega

theorem fitCount_overflow (m : Nat) :
    ∀ (acc : Nat) (l : List Scored), fitCount m acc l < l.length →
      m < acc + costOf (l.take (fitCount m acc l + 1))
  | acc, [], h => by simp [fitCount] at h
  | acc, s :: rest, h => by
    by_cases hc : m < acc + estimateTokens s.event.content
    · simp only [fitCount, if_pos hc, Nat.zero_add, List.take_succ_cons,
        List.take_zero, costOf_cons, costOf]
      simpa using Nat.lt_of_lt_of_le hc (by simp)
    · push_neg at hc
      have hlen : fitCount m (acc + estimateTokens s.event.content) rest < rest.length := by
        have := h
        simp only [fitCount, if_neg (not_lt.mpr hc), List.length_cons] at this
        omega
      have ih := fitCount_overflow m (acc + estimateTokens s.event.content) rest hlen
      simp only [fitCount, if_neg (not_lt.mpr hc), List.take_succ_cons, costOf_cons]
      omega

/-- C1: for every candidate list, `loadTriggeredMemories` returns exactly
the formatted longest prefix of the score-ordered candidate list whose
total estimated token cost (`ceil(contentLength / 4)` per candidate) stays
within the triggered-memory token budget; that prefix never exceeds the
budget; when not all candidates fit, the first overflowing candidate
already pushes the cost over the budget, and it and everything after it is
excluded (the result being a prefix); and the ranked list is indeed sorted
descending by score and is a permutation of the candidates. -/
theorem loadTriggeredMemories_greedy_budget (fmtDate : String → String)
    (scoreOf : MemoryEvent → ℚ) (maxTokens : Nat) (idx : MemoryIndex)
    (events : List MemoryEvent) (keywords : List String)
    (hkw : keywords ≠ []) :
    loadTriggeredMemories fmtDate scoreOf maxTokens idx events keywords =
      ((rankedCandidates scoreOf idx events keywords).take
          (fitCount maxTokens 0 (rankedCandidates scoreOf idx events keywords))).map
        (fun s => formatEvent fmtDate s.event) ∧
    costOf ((rankedCandidates scoreOf idx events keywords).take
        (fitCount maxTokens 0 (rankedCandidates scoreOf idx events keywords))) ≤ maxTokens ∧
    (fitCount maxTokens 0 (rankedCandidates scoreOf idx events keywords) <
        (rankedCandidates scoreOf idx events keywords).length →
      maxTokens < costOf ((rankedCandidates scoreOf idx events keywords).take
        (fitCount maxTokens 0 (rankedCandidates scoreOf idx events keywords) + 1))) ∧
    (rankedCandidates scoreOf idx events keywords).Sorted
      (fun a b => b.score ≤ a.score) ∧
    (rankedCandidates scoreOf idx events keywords).Perm
      (candidateScored scoreOf idx events keywords) := by
  refine ⟨?_, ?_, ?_, ?_, ?_⟩
  · rw [loadTriggeredMemories, if_neg (by simpa using hkw)]
    exact takeWithinBudget_eq_take fmtDate maxTokens 0 _
  · simpa using fitCount_budget maxTokens 0 (rankedCandidates scoreOf idx events keywords)
      (Nat.zero_le maxTokens)
  · intro hlt
    simpa using fitCount_overflow maxTokens 0 (rankedCandidates scoreOf idx events keywords) hlt
  · haveI : IsTotal Scored (fun a b => b.score ≤ a.score) := ⟨fun a b => le_total b.score a.score⟩
    haveI : IsTrans Scored (fun a b => b.score ≤ a.score) :=
      ⟨fun _ _ _ hab hbc => le_trans hbc hab⟩
    exact List.sorted_insertionSort _ _
  · exact List.perm_insertionSort _ _

/-- Index mapping the keyword `demo` to the two demo events, used in the
loader witness. -/
def demoIndex : MemoryIndex :=
  { keywords := [("demo", ["evt_a", "evt_b"])], sessions := [], anchors := [],
    eventMeta := [], lastUpdate := "t0" }

/-- First demo candidate (content costs 2 estimated tokens). -/
def demoEventA : MemoryEvent :=
  { id := "evt_a", timestamp := "2025-10-03T08:00:00.000Z", sessionId := "s3",
    type := .user, content := "aaaaaaaa", keywords := ["demo"], emotionalWeight := 5 }

/-- Second demo candidate (content costs 2 estimated tokens). -/
def demoEventB : MemoryEvent :=
  { id := "evt_b", timestamp := "2025-10-03T08:01:00.000Z", sessionId := "s3",
    type := .user, content := "bbbbbbbb", keywords := ["demo"], emotionalWeight := 5 }

/-- Score function for the loader witness: event A scores above event B. -/
def demoScore (e : MemoryEvent) : ℚ := if e.id == "evt_a" then 2 else 1

/-- C1 witness: with budget 3 and two candidates costing 2 tokens each, the
loader returns exactly the formatted first-ranked candidate, and the first
overflowing candidate (the second) would push the cost to 4 > 3. -/
theorem loadTriggeredMemories_greedy_budget_witness :
    loadTriggeredMemories (fun s => s) demoScore 3 demoIndex [demoEventA, demoEventB]
        ["demo"] =
      ((rankedCandidates demoScore demoIndex [demoEventA, demoEventB] ["demo"]).take
          (fitCount 3 0 (rankedCandidates demoScore demoIndex [demoEventA, demoEventB] ["demo"]))).map
        (fun s => formatEvent (fun s => s) s.event) ∧
    3 < costOf ((rankedCandidates demoScore demoIndex [demoEventA, demoEventB] ["demo"]).take
        (fitCount 3 0 (rankedCandidates demoScore demoIndex [demoEventA, demoEventB] ["demo"]) + 1)) :=
  ⟨(loadTriggeredMemories_greedy_budget (fun s => s) demoScore 3 demoIndex
      [demoEventA, demoEventB] ["demo"] (by decide)).1,
   (loadTriggeredMemories_greedy_budget (fun s => s) demoScore 3 demoIndex
      [demoEventA, demoEventB] ["demo"] (by decide)).2.2.1 (by decide)⟩

/-- The embedding-backfill loop at the top of `getSemanticCandidates`
(`part_002`, lines 323–330): for every event without a stored vector, call
`embed` and store the result; the first embedding failure aborts the loop
(the exception propagates to the enclosing `try`). `embed` stands for the
external embedding provider. -/
def ensureEmbeddings (embed : String → Except String (List ℚ)) :
    List (String × List ℚ) → List MemoryEvent → Except String (List (String × List ℚ))
  | vs, [] => .ok vs
  | vs, e :: rest =>
    match alistLookup e.id vs with
    | some _ => ensureEmbeddings embed vs rest
    | none =>
      match embed e.content with
      | .error err => .error err
      | .ok v => ensureEmbeddings embed (alistSet e.id v vs) rest

/-- The sort `results.sort((a, b) => b.similarity - a.similarity)` of
`VectorStore.findSimilar`. -/
def sortBySimDesc (l : List (String × ℚ)) : List (String × ℚ) :=
  l.insertionSort (fun a b => b.2 ≤ a.2)

/-- `VectorStore.findSimilar` from `src/memory/embeddings.ts` (lines
208–220): similarity of the query vector against every stored vector,
sorted descending, truncated to `topK`. `sim` stands for the float cosine
similarity (its real-number model is `cosineSimilarity` below). -/
def findSimilar (sim : List ℚ → List ℚ → ℚ) (vs : List (String × List ℚ))
    (queryVector : List ℚ) (topK : Nat) : List (String × ℚ) :=
  (sortBySimDesc (vs.map (fun p => (p.1, sim queryVector p.2)))).take topK

/-- The body of `getSemanticCandidates` (`part_002`, lines 318–348) before
the `catch`: backfill embeddings, embed the query, take the top 20 by
similarity, and keep those above the 0.5 threshold. -/
def getSemanticCandidatesE (sim : List ℚ → List ℚ → ℚ)
    (embed : String → Except String (List ℚ)) (vs : List (String × List ℚ))
    (events : List MemoryEvent) (query : String) : Except String (List String) :=
  match ensureEmbeddings embed vs events with
  | .error err => .error err
  | .ok vs' =>
    match embed query with
    | .error err => .error err
    | .ok qv =>
      .ok (((findSimilar sim vs' qv 20).filter (fun p => (1 : ℚ)/2 < p.2)).map
        (fun p => p.1))

/-- `getSemanticCandidates` with its `catch` (`part_002`, lines 344–347):
any failure is swallowed and an EMPTY candidate set is returned — the
`console.error` message says "falling back to keywords", but no keyword
lookup happens on this path. -/
def getSemanticCandidates (sim : List ℚ → List ℚ → ℚ)
    (embed : String → Except String (List ℚ)) (vs : List (String × List ℚ))
    (events : List MemoryEvent) (query : String) : List String :=
  match getSemanticCandidatesE sim embed vs events query with
  | .ok ids => ids
  | .error _ => []

/-- `loadTriggeredMemories` of the semantic loader (`part_002`, lines
269–313): when semantic search is configured and a query message is
present, candidates come exclusively from `getSemanticCandidates`; the
keyword lookup is reached only when semantic search is NOT configured.
Scoring, sorting and the greedy budget loop are as in the keyword loader. -/
def loadTriggeredMemoriesSemantic (fmtDate : String → String)
    (scoreOf : MemoryEvent → ℚ) (maxTokens : Nat) (semanticConfigured : Bool)
    (sim : List ℚ → List ℚ → ℚ) (embed : String → Except String (List ℚ))
    (vs : List (String × List ℚ)) (idx : MemoryIndex)
    (events : List MemoryEvent) (keywords : List String)
    (originalMessage : Option String) : List String :=
  if events.isEmpty then []
  else
    let candidateIds : Option (List String) :=
      if semanticConfigured && originalMessage.isSome then
        some (getSemanticCandidates sim embed vs events (originalMessage.getD ""))
      else if !keywords.isEmpty then some (lookupKeywords idx keywords)
      else none
    match candidateIds with
    | none => []
    | some ids =>
      takeWithinBudget fmtDate maxTokens 0
        (sortByScoreDesc ((events.filter (fun e => ids.contains e.id)).map
          (fun e => Scored.mk e (scoreOf e))))

/-- An embedding provider that always fails, modelling an unreachable or
erroring provider. -/
def failingEmbed : String → Except String (List ℚ) := fun _ => .error "provider down"

/-- C4: evaluation of the semantic loader at the failing input. With
semantic search configured and the embedding call failing, the loader
returns NO triggered memories — the `catch` in `getSemanticCandidates`
yields an empty candidate set and the keyword branch is never reached —
whereas the keyword-only path on the same state returns the matching
memory. The code contradicts the spec and its own fallback log message. -/
theorem semantic_failure_drops_keyword_fallback :
    loadTriggeredMemoriesSemantic (fun s => s) demoScore 1500 true (fun _ _ => 0)
        failingEmbed [] demoIndex [demoEventA] ["demo"] (some "demo query") = [] ∧
    loadTriggeredMemoriesSemantic (fun s => s) demoScore 1500 false (fun _ _ => 0)
        failingEmbed [] demoIndex [demoEventA] ["demo"] (some "demo query") =
      [formatEvent (fun s => s) demoEventA] ∧
    ([] : List String) ≠ [formatEvent (fun s => s) demoEventA] := by
  refine ⟨rfl, rfl, by simp⟩

/-- `CompactedSession` from `src/memory/compactor.ts` (lines 14–24). -/
structure CompactedSession where
  sessionId : String
  originalEventCount : Nat
  summary : String
  keyTopics : List String
  emotionalHighlights : List String
  averageImportance : ℚ
  startTime : String
  endTime : String
  compactedAt : String
deriving DecidableEq

/-- The pure summary builders of the compactor (`createSessionSummary`,
`extractTopKeywords`, `extractEmotionalHighlights`,
`calculateSessionEmotionalWeight`), passed as parameters: they involve
`Date` arithmetic and their outputs never influence which archive bucket a
session lands in or whether it is written at all. -/
structure SummaryFns where
  summarize : List MemoryEvent → String
  topKeywords : List MemoryEvent → List String
  highlights : List MemoryEvent → List String
  avgImportance : List MemoryEvent → ℚ

/-- The monthly archives: month key (`YYYY-MM`, from
`startTime.substring(0, 7)`) to the `CompactedSession` array stored in that
month's file. -/
abbrev Archives := List (String × List CompactedSession)

/-- `compacted.startTime.substring(0, 7)` — the month key of a session. -/
def monthKey (startTime : String) : String :=
  String.mk (startTime.toList.take 7)

/-- `Compactor.isSessionCompacted` from `src/memory/compactor.ts` (lines
189–201): scan every monthly archive file for the session id. -/
def isSessionCompacted (arch : Archives) (sessionId : String) : Bool :=
  arch.any (fun p => p.2.any (fun s => s.sessionId == sessionId))

/-- `Compactor.saveCompactedSession` from `src/memory/compactor.ts` (lines
169–184): append the compacted session to its month's file unless that
file already holds an entry with the same session id. -/
def saveCompactedSession (arch : Archives) (c : CompactedSession) : Archives :=
  let key := monthKey c.startTime
  let sessions := (alistLookup key arch).getD []
  if sessions.any (fun s => s.sessionId == c.sessionId) then arch
  else alistSet key (sessions ++ [c]) arch

/-- The `CompactedSession` record built by `compactSession` for a session
with events `e0 :: rest` (`startTime`/`endTime` are the first and last
event timestamps; `compactedAt` is the current time). -/
def mkCompacted (fns : SummaryFns) (sessionId : String) (e0 : MemoryEvent)
    (rest : List MemoryEvent) (now : String) : CompactedSession :=
  { sessionId := sessionId,
    originalEventCount := (e0 :: rest).length,
    summary := fns.summarize (e0 :: rest),
    keyTopics := fns.topKeywords (e0 :: rest),
    emotionalHighlights := fns.highlights (e0 :: rest),
    averageImportance := fns.avgImportance (e0 :: rest),
    startTime := e0.timestamp,
    endTime := (rest.getLastD e0).timestamp,
    compactedAt := now }

/-- `Compactor.compactSession` from `src/memory/compactor.ts` (lines
133–164): no events → `false`; already present in some archive → `false`
without touching the archives; otherwise build the compacted record and
save it, returning `true`. `events` is what `store.getEvents(sessionId)`
returned for this session. -/
def compactSession (fns : SummaryFns) (arch : Archives) (sessionId : String)
    (events : List MemoryEvent) (now : String) : Bool × Archives :=
  match events with
  | [] => (false, arch)
  | e0 :: rest =>
    if isSessionCompacted arch sessionId then (false, arch)
    else (true, saveCompactedSession arch (mkCompacted fns sessionId e0 rest now))

/-- Iterate `compactSession` for the same session `n` times. -/
def compactRuns (fns : SummaryFns) (sessionId : String) (events : List MemoryEvent)
    (now : String) : Nat → Archives → Archives
  | 0, arch => arch
  | n + 1, arch =>
    compactRuns fns sessionId events now n (compactSession fns arch sessionId events now).2

/-- `Compactor.compactOldSessions` from `src/memory/compactor.ts` (lines
88–98): run `compactSession` over a list of (session id, session events)
pairs, counting successes. -/
def compactOldSessions (fns : SummaryFns) (arch : Archives)
    (sessions : List (String × List MemoryEvent)) (now : String) : Nat × Archives :=
  sessions.foldl (fun acc p =>
    let r := compactSession fns acc.2 p.1 p.2 now
    (if r.1 then acc.1 + 1 else acc.1, r.2)) (0, arch)

/-- Number of entries for a session id in one archive file. -/
def countMatches (ss : List CompactedSession) (sessionId : String) : Nat :=
  (ss.filter (fun s => s.sessionId == sessionId)).length

/-- Total number of entries for a session id across all monthly archives. -/
def countSession (arch : Archives) (sessionId : String) : Nat :=
  (arch.map (fun p => countMatches p.2 sessionId)).sum

theorem isSessionCompacted_false_iff (sessionId : String) :
    ∀ arch : Archives, isSessionCompacted arch sessionId = false ↔
      countSession arch sessionId = 0
  | [] => by simp [isSessionCompacted, countSession]
  | p :: t => by
    simp only [isSessionCompacted, countSession, List.any_cons, List.map_cons,
      List.sum_cons, Bool.or_eq_false_iff, Nat.add_eq_zero]
    constructor
    · rintro ⟨h1, h2⟩
      refine ⟨?_, ((isSessionCompacted_false_iff sessionId t).mp h2)⟩
      simp only [countMatches, List.length_eq_zero, List.filter_eq_nil_iff]
      intro a ha
      exact (List.any_eq_false.mp h1) a ha
    · rintro ⟨h1, h2⟩
      refine ⟨?_, (isSessionCompacted_false_iff sessionId t).mpr h2⟩
      apply List.any_eq_false.mpr
      intro a ha
      have := List.filter_eq_nil_iff.mp (List.length_eq_zero.mp h1)
      exact this a ha

theorem countSession_alistSet_of_zero (sessionId : String) (k : String)
    (v : List CompactedSession) :
    ∀ arch : Archives, countSession arch sessionId = 0 →
      countSession (alistSet k v arch) sessionId = countMatches v sessionId
  | [], _ => by simp [alistSet, countSession]
  | (k0, ss) :: t, h => by
    simp only [countSession, List.map_cons, List.sum_cons, Nat.add_eq_zero] at h
    by_cases hk : k0 == k
    · simp [alistSet, hk, countSession, h.2]
    · simp only [alistSet, hk, Bool.false_eq_true, if_false, countSession,
        List.map_cons, List.sum_cons, h.1, Nat.zero_add]
      exact countSession_alistSet_of_zero sessionId k v t h.2

theorem alistLookup_count_zero (sessionId : String) (k : String) :
    ∀ arch : Archives, countSession arch sessionId = 0 →
      countMatches ((alistLookup k arch).getD []) sessionId = 0
  | [], _ => by simp [alistLookup, countMatches]
  | (k0, ss) :: t, h => by
    simp only [countSession, List.map_cons, List.sum_cons, Nat.add_eq_zero] at h
    by_cases hk : k0 == k
    · simp [alistLookup, hk, h.1]
    · simp only [alistLookup, hk, Bool.false_eq_true, if_false]
      exact alistLookup_count_zero sessionId k t h.2

theorem countMatches_append (ss ts : List CompactedSession) (sessionId : String) :
    countMatches (ss ++ ts) sessionId =
      countMatches ss sessionId + countMatches ts sessionId := by
  simp [countMatches, List.filter_append]

theorem countSession_save_of_zero (arch : Archives) (c : CompactedSession)
    (h : countSession arch c.sessionId = 0) :
    countSession (saveCompactedSession arch c) c.sessionId = 1 := by
  have hbucket := alistLookup_count_zero c.sessionId (monthKey c.startTime) arch h
  have hnone : ((alistLookup (monthKey c.startTime) arch).getD []).any
      (fun s => s.sessionId == c.sessionId) = false := by
    apply List.any_eq_false.mpr
    intro a ha
    have := List.filter_eq_nil_iff.mp (List.length_eq_zero.mp hbucket)
    exact this a ha
  rw [saveCompactedSession]
  simp only [hnone, Bool.false_eq_true, if_false]
  rw [countSession_alistSet_of_zero c.sessionId _ _ arch h, countMatches_append, hbucket]
  simp [countMatches]

theorem countSession_alistSet_lookup (sessionId k : String)
    (extra : List CompactedSession) (hextra : countMatches extra sessionId = 0) :
    ∀ arch : Archives,
      countSession (alistSet k ((alistLookup k arch).getD [] ++ extra) arch) sessionId =
        countSession arch sessionId
  | [] => by
    simp [alistSet, alistLookup, countSession, hextra]
  | (k0, ss) :: t => by
    by_cases hk : k0 == k
    · simp [alistSet, alistLookup, hk, countSession, countMatches_append, hextra]
    · simp only [alistLookup, hk, Bool.false_eq_true, if_false, alistSet, countSession,
        List.map_cons, List.sum_cons]
      have ih := countSession_alistSet_lookup sessionId k extra hextra t
      simp only [countSession] at ih
      omega

theorem countSession_save_other (arch : Archives) (c : CompactedSession)
    (sessionId : String) (hne : ¬ c.sessionId = sessionId) :
    countSession (saveCompactedSession arch c) sessionId = countSession arch sessionId := by
  rw [saveCompactedSession]
  by_cases hdup : ((alistLookup (monthKey c.startTime) arch).getD []).any
      (fun s => s.sessionId == c.sessionId)
  · simp [hdup]
  · simp only [hdup, Bool.false_eq_true, if_false]
    exact countSession_alistSet_lookup sessionId (monthKey c.startTime) [c]
      (by simp [countMatches, hne]) arch

/-- One `compactSession` run for an arbitrary session preserves the
at-most-one invariant of every session id. -/
theorem compactSession_count_le_one (fns : SummaryFns) (arch : Archives)
    (sid' : String) (events : List MemoryEvent) (now : String) (sessionId : String)
    (h : countSession arch sessionId ≤ 1) :
    countSession (compactSession fns arch sid' events now).2 sessionId ≤ 1 := by
  match events with
  | [] => exact h
  | e0 :: rest =>
    by_cases hc : isSessionCompacted arch sid'
    · simpa [compactSession, hc]
    · simp only [compactSession, hc, Bool.false_eq_true, if_false]
      by_cases hsid : sid' = sessionId
      · subst hsid
        have h0 : countSession arch sid' = 0 :=
          (isSessionCompacted_false_iff sid' arch).mp (Bool.not_eq_true _ ▸ (by simpa using hc))
        have := countSession_save_of_zero arch (mkCompacted fns sid' e0 rest now)
          (by simpa [mkCompacted] using h0)
        simpa [mkCompacted] using Nat.le_of_eq this
      · rw [countSession_save_other arch _ sessionId (by simpa [mkCompacted] using hsid)]
        exact h

theorem compactRuns_count_le_one (fns : SummaryFns) (sessionId : String)
    (events : List MemoryEvent) (now : String) :
    ∀ (n : Nat) (arch : Archives), countSession arch sessionId ≤ 1 →
      countSession (compactRuns fns sessionId events now n arch) sessionId ≤ 1
  | 0, _, h => h
  | n + 1, arch, h =>
    compactRuns_count_le_one fns sessionId events now n _
      (compactSession_count_le_one fns arch sessionId events now sessionId h)

theorem compactOldSessions_aux (fns : SummaryFns) (now : String) (sessionId : String) :
    ∀ (sessions : List (String × List MemoryEvent)) (cnt : Nat) (arch : Archives),
      countSession arch sessionId ≤ 1 →
      countSession (sessions.foldl (fun acc p =>
        let r := compactSession fns acc.2 p.1 p.2 now
        (if r.1 then acc.1 + 1 else acc.1, r.2)) (cnt, arch)).2 sessionId ≤ 1
  | [], _, _, h => h
  | p :: t, cnt, arch, h => by
    simp only [List.foldl_cons]
    exact compactOldSessions_aux fns now sessionId t _ _
      (compactSession_count_le_one fns arch p.1 p.2 now sessionId h)

/-- C7: compaction is at-most-once per session id. If a session id already
occurs in some monthly archive, `compactSession` returns `false` and leaves
the archives unchanged; starting from archives holding the id at most once,
any number of `compactSession` runs — also through `compactOldSessions` —
keeps at most one entry for that id across all monthly archives; and from
archives not holding the id, the first run with a non-empty event list
writes exactly one entry and returns `true`, while the second run returns
`false` and changes nothing. -/
theorem compactSession_at_most_once (fns : SummaryFns) (arch : Archives)
    (sessionId : String) (events : List MemoryEvent) (now : String) :
    (1 ≤ countSession arch sessionId →
      compactSession fns arch sessionId events now = (false, arch)) ∧
    (countSession arch sessionId ≤ 1 → ∀ n : Nat,
      countSession (compactRuns fns sessionId events now n arch) sessionId ≤ 1) ∧
    (countSession arch sessionId ≤ 1 →
      ∀ sessions : List (String × List MemoryEvent),
        countSession (compactOldSessions fns arch sessions now).2 sessionId ≤ 1) ∧
    (events ≠ [] → countSession arch sessionId = 0 →
      (compactSession fns arch sessionId events now).1 = true ∧
      countSession (compactSession fns arch sessionId events now).2 sessionId = 1 ∧
      compactSession fns (compactSession fns arch sessionId events now).2 sessionId
          events now =
        (false, (compactSession fns arch sessionId events now).2)) := by
  have hcompacted_of_pos : ∀ a : Archives, 1 ≤ countSession a sessionId →
      isSessionCompacted a sessionId = true := by
    intro a ha
    by_contra hfalse
    have h0 := (isSessionCompacted_false_iff sessionId a).mp
      (Bool.not_eq_true _ ▸ hfalse)
    omega
  refine ⟨?_, ?_, ?_, ?_⟩
  · intro h
    match events with
    | [] => rfl
    | e0 :: rest =>
      simp [compactSession, hcompacted_of_pos arch h]
  · intro h n
    exact compactRuns_count_le_one fns sessionId events now n arch h
  · intro h sessions
    exact compactOldSessions_aux fns now sessionId sessions 0 arch h
  · intro hne h0
    match events with
    | [] => exact absurd rfl hne
    | e0 :: rest =>
      have hc : isSessionCompacted arch sessionId = false :=
        (isSessionCompacted_false_iff sessionId arch).mpr h0
      have hsave : countSession
          (saveCompactedSession arch (mkCompacted fns sessionId e0 rest now)) sessionId = 1 := by
        have := countSession_save_of_zero arch (mkCompacted fns sessionId e0 rest now)
          (by simpa [mkCompacted] using h0)
        simpa [mkCompacted] using this
      refine ⟨by simp [compactSession, hc], by simpa [compactSession, hc] using hsave, ?_⟩
      have hc2 : isSessionCompacted
          (saveCompactedSession arch (mkCompacted fns sessionId e0 rest now)) sessionId = true := by
        apply hcompacted_of_pos
        exact Nat.le_of_eq hsave.symm
      simp [compactSession, hc, hc2]

/-- Trivial summary builders used in the compactor witness. -/
def trivialSummaryFns : SummaryFns :=
  { summarize := fun _ => "", topKeywords := fun _ => [],
    highlights := fun _ => [], avgImportance := fun _ => 0 }

/-- C7 witness: starting from empty archives, the first compaction of
session `s3` succeeds and writes exactly one entry; the second returns
`false` and leaves the archives unchanged; and five repeated runs still
leave at most one entry. -/
theorem compactSession_at_most_once_witness :
    ((compactSession trivialSummaryFns [] "s3" [demoEventA] "t9").1 = true ∧
      countSession (compactSession trivialSummaryFns [] "s3" [demoEventA] "t9").2 "s3" = 1 ∧
      compactSession trivialSummaryFns
          (compactSession trivialSummaryFns [] "s3" [demoEventA] "t9").2 "s3"
          [demoEventA] "t9" =
        (false, (compactSession trivialSummaryFns [] "s3" [demoEventA] "t9").2)) ∧
    countSession (compactRuns trivialSummaryFns "s3" [demoEventA] "t9" 5 []) "s3" ≤ 1 :=
  ⟨(compactSession_at_most_once trivialSummaryFns [] "s3" [demoEventA] "t9").2.2.2
      (by decide) (by decide),
   (compactSession_at_most_once trivialSummaryFns [] "s3" [demoEventA] "t9").2.1
      (by decide) 5⟩

/-- The dot-product accumulator of `cosineSimilarity` from
`src/memory/embeddings.ts` (lines 30–34). -/
def dotProduct (a b : List ℝ) : ℝ :=
  (List.zipWith (fun x y => x * y) a b).sum

/-- The squared-norm accumulators `normA`/`normB` of `cosineSimilarity`. -/
def sumSquares (a : List ℝ) : ℝ :=
  (a.map (fun x => x * x)).sum

section
open Classical

/-- `cosineSimilarity` from `src/memory/embeddings.ts` (lines 23–38):
vectors of different lengths give 0; a zero denominator
(`Math.sqrt(normA) * Math.sqrt(normB) === 0`) gives 0; otherwise the dot
product over the product of Euclidean norms. -/
noncomputable def cosineSimilarity (a b : List ℝ) : ℝ :=
  if a.length ≠ b.length then 0
  else if Real.sqrt (sumSquares a) * Real.sqrt (sumSquares b) = 0 then 0
  else dotProduct a b / (Real.sqrt (sumSquares a) * Real.sqrt (sumSquares b))

end

theorem sumSquares_nonneg (a : List ℝ) : 0 ≤ sumSquares a := by
  apply List.sum_nonneg
  intro x hx
  obtain ⟨y, _, hy⟩ := List.mem_map.mp hx
  rw [← hy]
  exact mul_self_nonneg y

/-- C10: `cosineSimilarity` is total and never divides by zero — vectors
of different lengths yield 0; a zero-norm vector on either side yields 0;
and for equal-length vectors of non-zero norm the denominator
`√(Σaᵢ²) · √(Σbᵢ²)` is non-zero and the result is the dot product divided
by the product of the Euclidean norms. -/
theorem cosineSimilarity_total (a b : List ℝ) :
    (a.length ≠ b.length → cosineSimilarity a b = 0) ∧
    (sumSquares a = 0 ∨ sumSquares b = 0 → cosineSimilarity a b = 0) ∧
    (a.length = b.length → sumSquares a ≠ 0 → sumSquares b ≠ 0 →
      Real.sqrt (sumSquares a) * Real.sqrt (sumSquares b) ≠ 0 ∧
      cosineSimilarity a b =
        dotProduct a b / (Real.sqrt (sumSquares a) * Real.sqrt (sumSquares b))) := by
  refine ⟨?_, ?_, ?_⟩
  · intro h
    simp [cosineSimilarity, h]
  · intro h
    by_cases hl : a.length ≠ b.length
    · simp [cosineSimilarity, hl]
    · have hz : Real.sqrt (sumSquares a) * Real.sqrt (sumSquares b) = 0 := by
        rcases h with h | h
        · rw [h, Real.sqrt_zero, zero_mul]
        · rw [h, Real.sqrt_zero, mul_zero]
      simp [cosineSimilarity, hl, hz]
  · intro hl ha hb
    have hpa : 0 < sumSquares a := lt_of_le_of_ne (sumSquares_nonneg a) (Ne.symm ha)
    have hpb : 0 < sumSquares b := lt_of_le_of_ne (sumSquares_nonneg b) (Ne.symm hb)
    have hda : Real.sqrt (sumSquares a) ≠ 0 := Real.sqrt_ne_zero'.mpr hpa
    have hdb : Real.sqrt (sumSquares b) ≠ 0 := Real.sqrt_ne_zero'.mpr hpb
    have hdenom := mul_ne_zero hda hdb
    refine ⟨hdenom, ?_⟩
    simp [cosineSimilarity, hl, hdenom]

/-- C10 witness: the theorem applied to concrete vectors — a length
mismatch gives 0, a zero vector gives 0, and unit vectors hit the division
branch with a non-zero denominator. -/
theorem cosineSimilarity_total_witness :
    cosineSimilarity [(1 : ℝ)] [1, 2] = 0 ∧
    cosineSimilarity [(0 : ℝ)] [1] = 0 ∧
    (Real.sqrt (sumSquares [(1 : ℝ)]) * Real.sqrt (sumSquares [(1 : ℝ)]) ≠ 0 ∧
      cosineSimilarity [(1 : ℝ)] [1] =
        dotProduct [(1 : ℝ)] [1] /
          (Real.sqrt (sumSquares [(1 : ℝ)]) * Real.sqrt (sumSquares [(1 : ℝ)]))) :=
  ⟨(cosineSimilarity_total [(1 : ℝ)] [1, 2]).1 (by simp),
   (cosineSimilarity_total [(0 : ℝ)] [1]).2.1 (Or.inl (by norm_num [sumSquares])),
   (cosineSimilarity_total [(1 : ℝ)] [1]).2.2 rfl
     (by norm_num [sumSquares]) (by norm_num [sumSquares])⟩

/-- A single regular expression of the importance pattern tables, in the
normal form the tables actually use: a case-insensitive literal that must
occur somewhere (`containsLit`), at the start (`startsLit`, from `^…`), at
the end (`endsLit`, from `…$`), or as the whole message (`exactLit`, from
`^…$`). Alternations `(x|y)` and optional groups are expanded into several
entries, which is equivalent because the code only asks whether some
pattern of the category matches. -/
inductive Pat where
  | containsLit (s : String)
  | startsLit (s : String)
  | endsLit (s : String)
  | exactLit (s : String)

/-- One entry of the `PATTERNS` table of `src/triggers/importance.ts`:
category name, pattern list, weight. -/
structure PatternConfig where
  name : String
  pats : List Pat
  weight : Int

/-- The lowered character sequence of a message (`/i` matching: the
pattern literals are ASCII, so ASCII lowering is exact). -/
def jsLowerList (content : String) : List Char :=
  content.toList.map Char.toLower

/-- Whether one pattern matches the (lowered) message. -/
def matchPat (lc : List Char) : Pat → Bool
  | .containsLit s => listContainsSeq s.toList lc
  | .startsLit s => listStartsWith lc s.toList
  | .endsLit s => listEndsWith lc s.toList
  | .exactLit s => lc == s.toList

/-- An apostrophe as a string (for the `let's` / `i'm` / `we'll` pattern
literals). -/
def apos : String := String.mk [Char.ofNat 39]

/-- The `PATTERNS` table of `src/triggers/importance.ts` (lines 21–147),
in source (insertion) order, with each regex alternation expanded. -/
def PATTERNS : List PatternConfig :=
  [ { name := "personalInfo",
      pats :=
        [Pat.containsLit "ich bin", Pat.containsLit "i am",
         Pat.containsLit "mein name", Pat.containsLit "my name",
         Pat.containsLit "ich arbeite", Pat.containsLit "i work",
         Pat.containsLit "ich mag", Pat.containsLit "i like",
         Pat.containsLit "ich hasse", Pat.containsLit "i hate",
         Pat.containsLit "mein frau", Pat.containsLit "meine frau",
         Pat.containsLit "mein mann", Pat.containsLit "meine mann",
         Pat.containsLit "mein partner", Pat.containsLit "meine partner",
         Pat.containsLit "mein kind", Pat.containsLit "meine kind",
         Pat.containsLit "mein eltern", Pat.containsLit "meine eltern",
         Pat.containsLit "mein familie", Pat.containsLit "meine familie",
         Pat.containsLit "my wife", Pat.containsLit "my husband",
         Pat.containsLit "my partner", Pat.containsLit "my child",
         Pat.containsLit "my parents", Pat.containsLit "my family",
         Pat.containsLit "ich wohne", Pat.containsLit "i live",
         Pat.containsLit "mein projekt", Pat.containsLit "mein firma",
         Pat.containsLit "mein unternehmen", Pat.containsLit "mein restaurant",
         Pat.containsLit "mein bar",
         Pat.containsLit "my project", Pat.containsLit "my company",
         Pat.containsLit "my business", Pat.containsLit "my restaurant",
         Pat.containsLit "my bar"],
      weight := 3 },
    { name := "decision",
      pats :=
        [Pat.containsLit "ich habe entschieden", Pat.containsLit "ich habe beschlossen",
         Pat.containsLit "ich habe mich entschieden",
         Pat.containsLit "ich habe mich beschlossen",
         Pat.containsLit "i decided", Pat.containsLit "i chose",
         Pat.containsLit "i have decided", Pat.containsLit "i have chose",
         Pat.containsLit "lass uns",
         Pat.containsLit "lets", Pat.containsLit ("let" ++ apos ++ "s"),
         Pat.containsLit "wir machen",
         Pat.containsLit ("we" ++ apos ++ "ll do"), Pat.containsLit ("we" ++ apos ++ "ll make"),
         Pat.containsLit "we will do", Pat.containsLit "we will make",
         Pat.containsLit "ich werde", Pat.containsLit "i will",
         Pat.containsLit "ich plane", Pat.containsLit "i plan",
         Pat.containsLit "mein ziel", Pat.containsLit "my goal"],
      weight := 2 },
    { name := "emotion",
      pats :=
        [Pat.containsLit "ich liebe", Pat.containsLit "ich hasse",
         Pat.containsLit "ich fuerchte", Pat.containsLit "ich hoffe",
         Pat.containsLit "i love", Pat.containsLit "i hate",
         Pat.containsLit "i fear", Pat.containsLit "i hope",
         Pat.containsLit "frustriert", Pat.containsLit "begeistert",
         Pat.containsLit "aufgeregt", Pat.containsLit "traurig",
         Pat.containsLit "gluecklich",
         Pat.containsLit "frustrated", Pat.containsLit "excited",
         Pat.containsLit "sad", Pat.containsLit "happy", Pat.containsLit "angry",
         Pat.containsLit "das nervt",
         Pat.containsLit "this sucks", Pat.containsLit "this annoys",
         Pat.containsLit "ich freue mich",
         Pat.containsLit ("i" ++ apos ++ "m happy"), Pat.containsLit ("i" ++ apos ++ "m glad"),
         Pat.containsLit ("i" ++ apos ++ "m excited"),
         Pat.containsLit "i am happy", Pat.containsLit "i am glad",
         Pat.containsLit "i am excited",
         Pat.containsLit "endlich", Pat.containsLit "finally",
         Pat.containsLit "toll", Pat.containsLit "super", Pat.containsLit "geil",
         Pat.containsLit "awesome", Pat.containsLit "amazing",
         Pat.containsLit "scheisse", Pat.containsLit "shit", Pat.containsLit "damn",
         Pat.containsLit "verdammt"],
      weight := 2 },
    { name := "question",
      pats :=
        [Pat.startsLit "wie", Pat.startsLit "warum", Pat.startsLit "was",
         Pat.startsLit "wer", Pat.startsLit "wo", Pat.startsLit "wann",
         Pat.startsLit "welche",
         Pat.startsLit "how", Pat.startsLit "why", Pat.startsLit "what",
         Pat.startsLit "who", Pat.startsLit "where", Pat.startsLit "when",
         Pat.startsLit "which",
         Pat.endsLit "?",
         Pat.containsLit "kannst du", Pat.containsLit "can you",
         Pat.containsLit "hilf mir", Pat.containsLit "help me"],
      weight := 1 },
    { name := "technical",
      pats :=
        [Pat.containsLit "implementier", Pat.containsLit "implement",
         Pat.containsLit "architektur", Pat.containsLit "architecture",
         Pat.containsLit "refactor", Pat.containsLit "bug fix",
         Pat.containsLit "feature", Pat.containsLit "deploy",
         Pat.containsLit "publish", Pat.containsLit "release"],
      weight := 2 },
    { name := "confirmation",
      pats :=
        [Pat.exactLit "ok", Pat.exactLit "okay", Pat.exactLit "ja",
         Pat.exactLit "yes", Pat.exactLit "nein", Pat.exactLit "no",
         Pat.exactLit "gut", Pat.exactLit "good", Pat.exactLit "genau",
         Pat.exactLit "exactly", Pat.exactLit "danke", Pat.exactLit "thanks",
         Pat.exactLit "alles klar", Pat.exactLit "got it"],
      weight := -2 },
    { name := "shortCommand",
      pats :=
        [Pat.exactLit "go", Pat.exactLit "weiter", Pat.exactLit "next",
         Pat.exactLit "continue", Pat.exactLit "stop", Pat.exactLit "wait"],
      weight := -1 } ]

/-- Word counter of `calculateImportance`:
`content.split(/\s+/).filter(w => w.length > 0).length`, i.e. the number of
maximal non-whitespace runs. The Boolean argument tracks whether the scan
is inside a word. -/
def wordCountAux : Bool → List Char → Nat
  | _, [] => 0
  | inWord, c :: t =>
    if Char.isWhitespace c then wordCountAux false t
    else (if inWord then 0 else 1) + wordCountAux true t

/-- Number of words of a message. -/
def countWords (content : String) : Nat :=
  wordCountAux false content.toList

/-- Result of `calculateImportance`: score and contributing factors. -/
structure ImportanceResult where
  score : Int
  factors : List String
deriving DecidableEq

/-- `calculateImportance` from `src/triggers/importance.ts` (lines
152–183): baseline 5; every category with at least one matching pattern
contributes its weight exactly once and its name to the factors; fewer
than 5 words subtracts 1 (`veryShort`), more than 50 adds 1 (`detailed`);
the final score is clamped to [1, 10]. -/
def calculateImportance (content : String) : ImportanceResult :=
  let base := PATTERNS.foldl (fun acc config =>
    if config.pats.any (matchPat (jsLowerList content))
    then (acc.1 + config.weight, acc.2 ++ [config.name])
    else acc) ((5 : Int), ([] : List String))
  let wc := countWords content
  let adjusted :=
    if wc < 5 then (base.1 - 1, base.2 ++ ["veryShort"])
    else if wc > 50 then (base.1 + 1, base.2 ++ ["detailed"])
    else base
  { score := max 1 (min 10 adjusted.1), factors := adjusted.2 }

theorem patternFold_fst (content : String) :
    ∀ (l : List PatternConfig) (s : Int) (fs : List String),
      (l.foldl (fun acc config =>
        if config.pats.any (matchPat (jsLowerList content))
        then (acc.1 + config.weight, acc.2 ++ [config.name])
        else acc) (s, fs)).1 =
      s + ((l.filter (fun config => config.pats.any (matchPat (jsLowerList content)))).map
        (fun c => c.weight)).sum
  | [], s, fs => by simp
  | c :: t, s, fs => by
    by_cases hp : c.pats.any (matchPat (jsLowerList content))
    · simp only [List.foldl_cons, List.filter_cons, hp, if_pos, List.map_cons, List.sum_cons,
        patternFold_fst content t (s + c.weight) (fs ++ [c.name])]
      ring
    · simp only [List.foldl_cons, List.filter_cons, hp, Bool.false_eq_true, if_false,
        patternFold_fst content t s fs]

/-- C8: for every message, the importance score is the clamp to [1, 10] of
5 plus the summed weights of the pattern categories that match (each
counted once per category: personalInfo +3, decision +2, emotion +2,
question +1, technical +2, confirmation −2, shortCommand −1), minus 1 below
5 words, plus 1 above 50 words; in particular the personal-information
message scores at least 7 with `personalInfo` among its factors, and `ok`
scores at most 3. -/
theorem calculateImportance_formula :
    (∀ content : String,
      (calculateImportance content).score =
        max 1 (min 10 (5 +
          ((PATTERNS.filter (fun config =>
              config.pats.any (matchPat (jsLowerList content)))).map
            (fun c => c.weight)).sum +
          (if countWords content < 5 then -1
           else if 50 < countWords content then 1 else 0)))) ∧
    7 ≤ (calculateImportance "Ich bin Marcel, Vibecoder mit ADHS").score ∧
    "personalInfo" ∈ (calculateImportance "Ich bin Marcel, Vibecoder mit ADHS").factors ∧
    (calculateImportance "ok").score ≤ 3 := by
  refine ⟨?_, by decide, by decide, by decide⟩
  intro content
  have hfold := patternFold_fst content PATTERNS 5 []
  simp only [calculateImportance]
  split_ifs with h5 h50
  all_goals try dsimp only
  all_goals rw [hfold]
  all_goals omega
